import Mathlib

/-!
Verification development for the farm-ng Amiga Oak camera client
(`py/farm_ng/oak/camera_client.py`).

The file embeds the two components with design content:

* `RateLimiter` — the trailing-edge coalescing decorator (`RateLimiter.__init__`,
  `RateLimiter.wrapper`, `RateLimiter.__call__`, `RateLimiter.next_call_wait`),
  together with an idealized single-threaded event loop (timers fire exactly at
  their scheduled monotonic time, before any later invocation is processed).
  Monotonic time is embedded as `Int`.
* `OakCameraClient` — the settings snapshots, the dirty flag, `settings_reply`,
  `get_state`, `send_settings`, `stream_frames`, and the two rate-limited
  mutators `update_rgb_settings` / `update_mono_settings`.

Protobuf message types (`oak_pb2`, `service_pb2`) and `ServiceState` live
outside the embedded sources; their record shapes are modelled from the spec
where noted.
-/

namespace CameraClient

/-! ## RateLimiter (camera_client.py lines 31-64) -/

/-- State of one `RateLimiter` instance: fields of `RateLimiter.__init__`.
The Python pair `args`/`kargs` of the most recent invocation is modelled as a
single value of type `α`; `none` means no invocation has stored arguments yet. -/
structure RateLimiter (α : Type) where
  last_call : Option Int
  period : Int
  outstanding_call : Bool
  args : Option α
deriving Repr, DecidableEq

/-- RateLimiter.__init__(period). -/
def RateLimiter.init (α : Type) (period : Int) : RateLimiter α :=
  { last_call := none, period := period, outstanding_call := false, args := none }

/-- RateLimiter.next_call_wait: -1 when no call has executed, otherwise
period - (now - last_call). -/
def RateLimiter.next_call_wait (s : RateLimiter α) (now : Int) : Int :=
  match s.last_call with
  | none => -1
  | some t => s.period - (now - t)

/-- RateLimiter.wrapper(func): records last_call = now and clears
outstanding_call, then calls func with the currently stored args.  The second
component is the argument value the wrapped function is applied to (`none`
never occurs in reachable uses, since every invocation stores args first). -/
def RateLimiter.wrapper (s : RateLimiter α) (now : Int) : RateLimiter α × Option α :=
  ({ s with last_call := some now, outstanding_call := false }, s.args)

/-- RateLimiter.wrapper where the wrapped function may raise: the state
mutations (last_call, outstanding_call) happen before `func` runs, so the
returned limiter state does not depend on the outcome of `f`. -/
def RateLimiter.wrapper_exc (f : α → Except ε Unit) (s : RateLimiter α) (now : Int) :
    RateLimiter α × Option (Except ε Unit) :=
  let s' := { s with last_call := some now, outstanding_call := false }
  (s', s.args.map f)

/-- One observable execution of the wrapped function: the monotonic time at
which `RateLimiter.wrapper` ran, the argument value passed to the wrapped
function, and whether it ran from a deferred `call_later` timer (`true`) or
synchronously inside `async_wrapper` (`false`). -/
structure Exec (α : Type) where
  time : Int
  arg : α
  deferred : Bool
deriving Repr, DecidableEq

/-- A limiter together with the event-loop timer queue holding the fire times
of the `call_later(delay, wrapper, func)` callbacks that are still pending. -/
structure LimiterSys (α : Type) where
  rl : RateLimiter α
  timers : List Int
deriving Repr, DecidableEq

/-- The body of `async_wrapper` (lines 48-58): store the new args, compute
`delay = next_call_wait()`; if `delay < 0` run `wrapper` synchronously,
otherwise schedule `wrapper` via `call_later(delay, ...)` unless a call is
already outstanding.  `now + delay` is the monotonic fire time of the timer. -/
def LimiterSys.invoke (sys : LimiterSys α) (now : Int) (a : α) :
    LimiterSys α × Option (Exec α) :=
  let s : RateLimiter α := { sys.rl with args := some a }
  let delay := s.next_call_wait now
  if delay < 0 then
    let p := s.wrapper now
    ({ rl := p.1, timers := sys.timers }, p.2.map (fun x => ⟨now, x, false⟩))
  else if s.outstanding_call then
    ({ rl := s, timers := sys.timers }, none)
  else
    ({ rl := { s with outstanding_call := true }, timers := sys.timers ++ [now + delay] }, none)

/-- Event loop: fire the pending timers whose scheduled time has been reached
(fire time at most `t`), each running `RateLimiter.wrapper` at its scheduled
time.  Returns the limiter state, the remaining timer queue and the executions
produced, in firing order. -/
def fireDueAux (rl : RateLimiter α) (t : Int) :
    List Int → RateLimiter α × List Int × List (Exec α)
  | [] => (rl, [], [])
  | ft :: rest =>
    if ft ≤ t then
      let p := rl.wrapper ft
      let q := fireDueAux p.1 t rest
      (q.1, q.2.1, (p.2.map (fun x => ⟨ft, x, true⟩)).toList ++ q.2.2)
    else (rl, ft :: rest, [])

/-- Event loop shutdown/flush: fire every remaining pending timer at its
scheduled time. -/
def flushAux (rl : RateLimiter α) : List Int → RateLimiter α × List (Exec α)
  | [] => (rl, [])
  | ft :: rest =>
    let p := rl.wrapper ft
    let q := flushAux p.1 rest
    (q.1, (p.2.map (fun x => ⟨ft, x, true⟩)).toList ++ q.2)

/-- Process one invocation of the decorated function at time `t` with args `a`:
the event loop first runs the timers that have come due, then `async_wrapper`
runs. -/
def LimiterSys.step (sys : LimiterSys α) (t : Int) (a : α) :
    LimiterSys α × List (Exec α) :=
  let f := fireDueAux sys.rl t sys.timers
  let p := LimiterSys.invoke ⟨f.1, f.2.1⟩ t a
  (p.1, f.2.2 ++ p.2.toList)

/-- Run a whole sequence of invocations (time, args), in order. -/
def LimiterSys.run (sys : LimiterSys α) : List (Int × α) → LimiterSys α × List (Exec α)
  | [] => (sys, [])
  | (t, a) :: rest =>
    let p := sys.step t a
    let q := p.1.run rest
    (q.1, p.2 ++ q.2)

/-- All executions caused by a sequence of invocations against a fresh
`RateLimiter period`, including the trailing deferred execution that fires
after the last invocation. -/
def runTrace (period : Int) (invs : List (Int × α)) : List (Exec α) :=
  let p := LimiterSys.run ⟨RateLimiter.init α period, []⟩ invs
  let q := flushAux p.1.rl p.1.timers
  p.2 ++ q.2

/-! ## Protobuf messages and service state

The `oak_pb2` / `service_pb2` message classes and `ServiceState` are imported
by the client but are not part of the embedded sources; their shapes below are
modelled from the spec (sections 3 and 6). -/

/-- Modelled from the spec: `oak_pb2.CameraSettings`, "a record per physical
sensor channel, each holding an auto-exposure flag and any exposure/gain
parameters the service accepts".  Unset proto3 fields default to false/0. -/
structure CameraSettings where
  auto_exposure : Bool
  exposure_time : Int
  iso_value : Int
deriving Repr, DecidableEq

/-- Modelled from the spec: `service_pb2.ReplyStatus`, an enum with `OK` and at
least one non-OK member. -/
inductive ReplyStatus
  | OK
  | FAILED
deriving Repr, DecidableEq

/-- Modelled from the spec: `oak_pb2.CameraControlRequest`, carrying the
settings of both channels (section 6: CameraControl call shape). -/
structure CameraControlRequest where
  stereo_settings : CameraSettings
  rgb_settings : CameraSettings
deriving Repr, DecidableEq

/-- Modelled from the spec: `oak_pb2.CameraControlReply`, the acknowledgment
carrying a status and the (possibly adjusted) settings echoed back. -/
structure CameraControlReply where
  status : ReplyStatus
  stereo_settings : CameraSettings
  rgb_settings : CameraSettings
deriving Repr, DecidableEq

/-- Modelled from the spec: `ServiceState`, "enumerated {UNKNOWN, STARTING,
RUNNING, STOPPED, ERROR}"; the nullary constructor `ServiceState()` used on the
RPC-failure path denotes `UNKNOWN`. -/
inductive ServiceState
  | UNKNOWN
  | STARTING
  | RUNNING
  | STOPPED
  | ERROR
deriving Repr, DecidableEq

/-- Modelled from the spec: derivation of a `ServiceState` from the integer
state code of a reply; unexpected codes collapse to `UNKNOWN` (section 7 treats
protocol-level surprises like RPC failures). -/
def ServiceState.fromCode : Nat → ServiceState
  | 0 => .UNKNOWN
  | 1 => .STARTING
  | 2 => .RUNNING
  | 3 => .STOPPED
  | 4 => .ERROR
  | _ => .UNKNOWN

/-- Modelled from the spec: `service_pb2.GetServiceStateReply` carries one
enum-valued field `state` (section 6: GetServiceState call shape). -/
structure GetServiceStateReply where
  state : Nat
deriving Repr, DecidableEq

/-- RPC-layer failures surfaced by the grpc runtime as `grpc.RpcError`;
per spec section 7, malformed replies surface through the same channel. -/
inductive RpcError
  | connectionRefused
  | timeout
  | unreachable
  | serverNotStarted
  | malformedReply
deriving Repr, DecidableEq

/-! ## OakCameraClient (camera_client.py lines 80-158) -/

/-- Handle for one server-driven frame stream: `stub.streamFrames(...)`
constructs a fresh streaming call object on every invocation; `id` is the
creation index of the call on this client's channel. -/
structure StreamHandle where
  id : Nat
  every_n : Int
deriving Repr, DecidableEq

/-- Mutable state of one `OakCameraClient` instance: the two settings
snapshots, the dirty flag, and the number of server streams opened so far on
its channel (the channel/stub themselves carry no other mutable state). -/
structure OakCameraClient where
  mono_camera_settings : CameraSettings
  rgb_camera_settings : CameraSettings
  needs_update : Bool
  streams_opened : Nat
deriving Repr, DecidableEq

/-- OakCameraClient.__init__: both snapshots start with auto_exposure=True and
proto defaults elsewhere; needs_update starts False; no stream is open. -/
def OakCameraClient.init : OakCameraClient :=
  { mono_camera_settings := ⟨true, 0, 0⟩
    rgb_camera_settings := ⟨true, 0, 0⟩
    needs_update := false
    streams_opened := 0 }

/-- OakCameraClient.settings_reply (lines 117-120): on an OK status copy the
echoed settings over both snapshots, otherwise change nothing. -/
def OakCameraClient.settings_reply (c : OakCameraClient) (reply : CameraControlReply) :
    OakCameraClient :=
  if reply.status = ReplyStatus.OK then
    { c with
      mono_camera_settings := reply.stereo_settings
      rgb_camera_settings := reply.rgb_settings }
  else c

/-- OakCameraClient.get_state (lines 122-133): the `await` of
`getServiceState` either yields a reply or raises `grpc.RpcError`; the
exception path produces the default `ServiceState()`. -/
def OakCameraClient.get_state (response : Except RpcError GetServiceStateReply) :
    ServiceState :=
  match response with
  | .ok r => ServiceState.fromCode r.state
  | .error _ => ServiceState.UNKNOWN

/-- OakCameraClient.send_settings (lines 135-140), up to the RPC dispatch:
builds the request from both snapshots and clears needs_update before the
await; returns the updated client and the dispatched request. -/
def OakCameraClient.send_settings (c : OakCameraClient) :
    OakCameraClient × CameraControlRequest :=
  ({ c with needs_update := false },
   { stereo_settings := c.mono_camera_settings, rgb_settings := c.rgb_camera_settings })

/-- One full settings push: `send_settings` dispatches the request, the service
(modelled as a function from request to reply) answers, and the client applies
`settings_reply` to the acknowledgment.  Returns the resulting client state and
the reply. -/
def OakCameraClient.push_settings (c : OakCameraClient)
    (service : CameraControlRequest → CameraControlReply) :
    OakCameraClient × CameraControlReply :=
  let p := c.send_settings
  let reply := service p.2
  (p.1.settings_reply reply, reply)

/-- OakCameraClient.stream_frames (lines 152-158): delegates to
`stub.streamFrames(StreamFramesRequest(every_n))`, which opens a new
server-driven stream each time it is called; the handle is the fresh call
object. -/
def OakCameraClient.stream_frames (c : OakCameraClient) (every_n : Int) :
    OakCameraClient × StreamHandle :=
  ({ c with streams_opened := c.streams_opened + 1 },
   { id := c.streams_opened, every_n := every_n })

/-! ## Rate-limiter invariant and event-order lemmas -/

variable {α : Type}

@[simp] theorem next_call_wait_none (per : Int) (oc : Bool) (ar : Option α) (t : Int) :
    RateLimiter.next_call_wait ⟨none, per, oc, ar⟩ t = -1 := rfl

@[simp] theorem next_call_wait_some (lc per : Int) (oc : Bool) (ar : Option α) (t : Int) :
    RateLimiter.next_call_wait ⟨some lc, per, oc, ar⟩ t = per - (t - lc) := rfl

/-- Invariant of a reachable limiter-plus-event-loop configuration at monotonic
time `now`: the period is constant, at most one wrapper callback is pending,
`outstanding_call` tracks exactly whether one is pending, the last execution is
in the past, and a pending callback fires at `last_call + period`, in the
future, with stored args available. -/
def Good (per now : Int) (sys : LimiterSys α) : Prop :=
  sys.rl.period = per ∧
  sys.timers.length ≤ 1 ∧
  (sys.rl.outstanding_call = true ↔ sys.timers ≠ []) ∧
  sys.rl.last_call.getD now ≤ now ∧
  ∀ ft ∈ sys.timers,
    sys.rl.args.isSome = true ∧ now ≤ ft ∧ sys.rl.last_call.isSome = true ∧
      ft = sys.rl.last_call.getD 0 + per

theorem good_init (per now : Int) :
    Good per now (⟨RateLimiter.init α per, []⟩ : LimiterSys α) := by
  simp [Good, RateLimiter.init]

theorem list_length_le_one (l : List β) (h : l.length ≤ 1) : l = [] ∨ ∃ a, l = [a] := by
  match l with
  | [] => exact Or.inl rfl
  | [a] => exact Or.inr ⟨a, rfl⟩
  | a :: b :: t => simp at h

/-- Shape of one scheduling step: no pending timer and a negative wait give an
immediate execution. -/
theorem step_no_timer_imm (lc? : Option Int) (per : Int) (oc : Bool) (ar : Option α)
    (t : Int) (a : α) (h : RateLimiter.next_call_wait ⟨lc?, per, oc, ar⟩ t < 0) :
    LimiterSys.step ⟨⟨lc?, per, oc, ar⟩, []⟩ t a
      = (⟨⟨some t, per, false, some a⟩, []⟩, [⟨t, a, false⟩]) := by
  simp [LimiterSys.step, fireDueAux, LimiterSys.invoke, RateLimiter.wrapper,
    RateLimiter.next_call_wait] at h ⊢
  split
  · exact ⟨rfl, rfl⟩
  · cases lc? with
    | none => simp_all
    | some lc => simp_all

/-- Shape of one scheduling step: no pending timer, a prior execution at `lc`
and a nonnegative wait schedule a wrapper callback at `lc + period`. -/
theorem step_no_timer_sched (lc per : Int) (ar : Option α) (t : Int) (a : α)
    (h : ¬ per - (t - lc) < 0) :
    LimiterSys.step ⟨⟨some lc, per, false, ar⟩, []⟩ t a
      = (⟨⟨some lc, per, true, some a⟩, [lc + per]⟩, []) := by
  have harith : t + (per - (t - lc)) = lc + per := by ring
  simp [LimiterSys.step, fireDueAux, LimiterSys.invoke, RateLimiter.wrapper,
    RateLimiter.next_call_wait, h, harith]

/-- Shape of one scheduling step: the pending timer is due, fires first, and
the invocation then re-schedules (its wait relative to the fresh execution at
`ft` is nonnegative). -/
theorem step_timer_due_sched (lc? : Option Int) (per ft : Int) (oc : Bool) (b : α)
    (t : Int) (a : α) (hft : ft ≤ t) (h : ¬ per - (t - ft) < 0) :
    LimiterSys.step ⟨⟨lc?, per, oc, some b⟩, [ft]⟩ t a
      = (⟨⟨some ft, per, true, some a⟩, [ft + per]⟩, [⟨ft, b, true⟩]) := by
  have harith : t + (per - (t - ft)) = ft + per := by ring
  simp [LimiterSys.step, fireDueAux, LimiterSys.invoke, RateLimiter.wrapper,
    RateLimiter.next_call_wait, hft, h, harith]

/-- Shape of one scheduling step: the pending timer is due, fires first, and
the invocation then also executes immediately (its wait relative to `ft` is
negative). -/
theorem step_timer_due_imm (lc? : Option Int) (per ft : Int) (oc : Bool) (b : α)
    (t : Int) (a : α) (hft : ft ≤ t) (h : per - (t - ft) < 0) :
    LimiterSys.step ⟨⟨lc?, per, oc, some b⟩, [ft]⟩ t a
      = (⟨⟨some t, per, false, some a⟩, []⟩, [⟨ft, b, true⟩, ⟨t, a, false⟩]) := by
  simp [LimiterSys.step, fireDueAux, LimiterSys.invoke, RateLimiter.wrapper,
    RateLimiter.next_call_wait, hft, h]

/-- Shape of one scheduling step: the pending timer is not yet due, so the
invocation only overwrites the stored args. -/
theorem step_timer_not_due (lc per ft : Int) (ar : Option α) (t : Int) (a : α)
    (hft : ¬ ft ≤ t) (h : ¬ per - (t - lc) < 0) :
    LimiterSys.step ⟨⟨some lc, per, true, ar⟩, [ft]⟩ t a
      = (⟨⟨some lc, per, true, some a⟩, [ft]⟩, []) := by
  simp [LimiterSys.step, fireDueAux, LimiterSys.invoke, RateLimiter.wrapper,
    RateLimiter.next_call_wait, hft, h]

@[simp] theorem flushAux_nil (rl : RateLimiter α) : flushAux rl [] = (rl, []) := rfl

theorem flushAux_one (lc? : Option Int) (per ft : Int) (oc : Bool) (b : α) :
    flushAux ⟨lc?, per, oc, some b⟩ [ft]
      = (⟨some ft, per, false, some b⟩, [⟨ft, b, true⟩]) := rfl

/-- Executions listed in order, anchored by the time of the last execution
before them (if any): every consecutive pair is at least one period apart, and
the first one is at least one period after the anchor. -/
def GapChain (per : Int) : Option Int → List (Exec α) → Prop
  | _, [] => True
  | none, e :: es => GapChain per (some e.time) es
  | some lc, e :: es => lc + per ≤ e.time ∧ GapChain per (some e.time) es

theorem gapChain_le (per : Int) (hper : 0 ≤ per) :
    ∀ (es : List (Exec α)) (lc : Int), GapChain per (some lc) es →
      ∀ e ∈ es, lc + per ≤ e.time := by
  intro es
  induction es with
  | nil => intro lc _ e he; cases he
  | cons x xs ih =>
    intro lc h e he
    obtain ⟨hx, hrest⟩ := h
    rcases List.mem_cons.mp he with rfl | he
    · exact hx
    · have := ih x.time hrest e he
      omega

theorem gapChain_pairwise (per : Int) (hper : 0 ≤ per) :
    ∀ (es : List (Exec α)) (lc? : Option Int), GapChain per lc? es →
      es.Pairwise (fun x y => x.time + per ≤ y.time) := by
  intro es
  induction es with
  | nil => intro _ _; exact List.Pairwise.nil
  | cons x xs ih =>
    intro lc? h
    have htail : GapChain per (some x.time) xs := by
      cases lc? with
      | none => exact h
      | some lc => exact h.2
    refine List.Pairwise.cons ?_ (ih (some x.time) htail)
    intro y hy
    exact gapChain_le per hper xs x.time htail y hy

/-- Full observable trace from a configuration: run all invocations, then let
the trailing timer (if any) fire. -/
def traceFrom (sys : LimiterSys α) (invs : List (Int × α)) : List (Exec α) :=
  let p := sys.run invs
  let q := flushAux p.1.rl p.1.timers
  p.2 ++ q.2

theorem traceFrom_nil (sys : LimiterSys α) :
    traceFrom sys [] = (flushAux sys.rl sys.timers).2 := rfl

theorem traceFrom_cons (sys : LimiterSys α) (t : Int) (a : α) (rest : List (Int × α)) :
    traceFrom sys ((t, a) :: rest) = (sys.step t a).2 ++ traceFrom (sys.step t a).1 rest := by
  simp [traceFrom, LimiterSys.run]

theorem runTrace_eq_traceFrom (per : Int) (invs : List (Int × α)) :
    runTrace per invs = traceFrom ⟨RateLimiter.init α per, []⟩ invs := rfl

/-- A reachable configuration is in one of two shapes: idle (no pending
callback) or waiting (exactly one pending callback at `last_call + period`). -/
theorem good_cases (per now : Int) (lc? : Option Int) (per' : Int) (oc : Bool)
    (ar : Option α) (tm : List Int) (h : Good per now ⟨⟨lc?, per', oc, ar⟩, tm⟩) :
    (tm = [] ∧ oc = false ∧ per = per' ∧ ∀ lc, lc? = some lc → lc ≤ now)
    ∨ ∃ ft lc b, tm = [ft] ∧ oc = true ∧ per = per' ∧ lc? = some lc ∧ ar = some b ∧
        ft = lc + per ∧ now ≤ ft ∧ lc ≤ now := by
  obtain ⟨hper, hlen, hiff, hlast, hball⟩ := h
  dsimp only at hper hlen hiff hlast hball
  rcases list_length_le_one _ hlen with rfl | ⟨ft, rfl⟩
  · left
    refine ⟨rfl, ?_, hper.symm, ?_⟩
    · cases oc with
      | false => rfl
      | true => exact absurd (hiff.mp rfl) (by simp)
    · intro lc hlc
      rw [hlc] at hlast
      simpa using hlast
  · right
    obtain ⟨hargs, hnow, hsome, hft⟩ := hball ft (List.mem_singleton.mpr rfl)
    obtain ⟨lc, hlc⟩ := Option.isSome_iff_exists.mp hsome
    obtain ⟨b, hb⟩ := Option.isSome_iff_exists.mp hargs
    refine ⟨ft, lc, b, rfl, hiff.mpr (by simp), hper.symm, hlc, hb, ?_, hnow, ?_⟩
    · rw [hlc] at hft
      simpa using hft
    · rw [hlc] at hlast
      simpa using hlast

/-- Executions in the trace of any reachable configuration are spaced at least
one period apart, anchored at the configuration's last execution time. -/
theorem traceFrom_gapChain :
    ∀ (invs : List (Int × α)) (sys : LimiterSys α) (now per : Int),
      Good per now sys →
      invs.Pairwise (fun p q => p.1 < q.1) →
      (∀ p ∈ invs, now ≤ p.1) →
      GapChain per sys.rl.last_call (traceFrom sys invs) := by
  intro invs
  induction invs with
  | nil =>
    rintro ⟨⟨lc?, per', oc, ar⟩, tm⟩ now per hG _ _
    rcases good_cases per now lc? per' oc ar tm hG with
      ⟨rfl, _, _, _⟩ | ⟨ft, lc, b, rfl, _, rfl, rfl, rfl, hft, _, _⟩
    · rw [traceFrom_nil]
      cases lc? <;> simp [GapChain]
    · rw [traceFrom_nil, flushAux_one]
      simp only [GapChain]
      exact ⟨by omega, trivial⟩
  | cons hd rest ih =>
    obtain ⟨t, a⟩ := hd
    rintro ⟨⟨lc?, per', oc, ar⟩, tm⟩ now per hG hp hlb
    have ht : now ≤ t := hlb (t, a) (List.mem_cons_self _ _)
    have hlb' : ∀ q ∈ rest, t ≤ q.1 :=
      fun q hq => le_of_lt ((List.pairwise_cons.mp hp).1 q hq)
    rw [traceFrom_cons]
    rcases good_cases per now lc? per' oc ar tm hG with
      ⟨rfl, rfl, rfl, hlast⟩ | ⟨ft, lc, b, rfl, rfl, rfl, rfl, rfl, hft, hnowft, hlcnow⟩
    · by_cases hd0 : RateLimiter.next_call_wait ⟨lc?, per, false, ar⟩ t < 0
      · rw [step_no_timer_imm lc? per false ar t a hd0]
        have hchain := ih ⟨⟨some t, per, false, some a⟩, []⟩ t per (by simp [Good])
          hp.of_cons hlb'
        cases lc? with
        | none => simpa [GapChain] using hchain
        | some lc =>
          have h1 : lc ≤ now := hlast lc rfl
          have h2 : per - (t - lc) < 0 := by simpa using hd0
          simp only [GapChain, List.cons_append, List.nil_append]
          exact ⟨by omega, hchain⟩
      · cases lc? with
        | none => simp at hd0
        | some lc =>
          have h1 : lc ≤ now := hlast lc rfl
          have h2 : ¬ per - (t - lc) < 0 := by simpa using hd0
          rw [step_no_timer_sched lc per ar t a h2]
          have hchain := ih ⟨⟨some lc, per, true, some a⟩, [lc + per]⟩ t per
            (by simp [Good]; omega) hp.of_cons hlb'
          simpa [GapChain] using hchain
    · by_cases hdue : ft ≤ t
      · by_cases h2 : per - (t - ft) < 0
        · rw [step_timer_due_imm (some lc) per ft true b t a hdue h2]
          have hchain := ih ⟨⟨some t, per, false, some a⟩, []⟩ t per (by simp [Good])
            hp.of_cons hlb'
          simp only [GapChain, List.cons_append, List.nil_append]
          exact ⟨by omega, by omega, hchain⟩
        · rw [step_timer_due_sched (some lc) per ft true b t a hdue h2]
          have hchain := ih ⟨⟨some ft, per, true, some a⟩, [ft + per]⟩ t per
            (by simp [Good]; omega) hp.of_cons hlb'
          simp only [GapChain, List.cons_append, List.nil_append]
          exact ⟨by omega, hchain⟩
      · have h2 : ¬ per - (t - lc) < 0 := by omega
        rw [step_timer_not_due lc per ft (some b) t a hdue h2]
        have hchain := ih ⟨⟨some lc, per, true, some a⟩, [ft]⟩ t per
          (by simp [Good]; omega) hp.of_cons hlb'
        simpa [GapChain] using hchain

theorem provenance_lift (t : Int) (a : α) (rest : List (Int × α)) (e : Exec α)
    (h : ∃ ps p rs, rest = ps ++ p :: rs ∧ e.arg = p.2 ∧ p.1 ≤ e.time ∧
      ∀ q ∈ rs, e.time ≤ q.1) :
    ∃ ps p rs, (t, a) :: rest = ps ++ p :: rs ∧ e.arg = p.2 ∧ p.1 ≤ e.time ∧
      ∀ q ∈ rs, e.time ≤ q.1 := by
  obtain ⟨ps, p, rs, rfl, h1, h2, h3⟩ := h
  exact ⟨(t, a) :: ps, p, rs, rfl, h1, h2, h3⟩

theorem provenance_self (t : Int) (a : α) (rest : List (Int × α)) (e : Exec α)
    (harg : e.arg = a) (htime : t ≤ e.time) (hfut : ∀ q ∈ rest, e.time ≤ q.1) :
    ∃ ps p rs, (t, a) :: rest = ps ++ p :: rs ∧ e.arg = p.2 ∧ p.1 ≤ e.time ∧
      ∀ q ∈ rs, e.time ≤ q.1 :=
  ⟨[], (t, a), rest, rfl, harg, htime, hfut⟩

/-- Provenance of executed arguments: every execution in the trace either
replays the args already stored by the pending callback of the initial
configuration, or runs the args of an invocation that happened at or before its
firing time while every later invocation is at or after that firing time. -/
theorem traceFrom_args :
    ∀ (invs : List (Int × α)) (sys : LimiterSys α) (now per : Int),
      Good per now sys →
      invs.Pairwise (fun p q => p.1 < q.1) →
      (∀ p ∈ invs, now ≤ p.1) →
      ∀ e ∈ traceFrom sys invs,
        (sys.rl.args = some e.arg ∧ sys.timers = [e.time] ∧ ∀ q ∈ invs, e.time ≤ q.1)
        ∨ (∃ ps p rs, invs = ps ++ p :: rs ∧ e.arg = p.2 ∧ p.1 ≤ e.time ∧
            ∀ q ∈ rs, e.time ≤ q.1) := by
  intro invs
  induction invs with
  | nil =>
    rintro ⟨⟨lc?, per', oc, ar⟩, tm⟩ now per hG _ _ e he
    rcases good_cases per now lc? per' oc ar tm hG with
      ⟨rfl, _, _, _⟩ | ⟨ft, lc, b, rfl, _, rfl, rfl, rfl, hft, _, _⟩
    · rw [traceFrom_nil] at he
      exact absurd he (by simp)
    · rw [traceFrom_nil, flushAux_one] at he
      have he' : e = ⟨ft, b, true⟩ := by simpa using he
      subst he'
      left
      exact ⟨rfl, rfl, fun q hq => absurd hq (by simp)⟩
  | cons hd rest ih =>
    obtain ⟨t, a⟩ := hd
    rintro ⟨⟨lc?, per', oc, ar⟩, tm⟩ now per hG hp hlb e he
    have ht : now ≤ t := hlb (t, a) (List.mem_cons_self _ _)
    have hlb' : ∀ q ∈ rest, t ≤ q.1 :=
      fun q hq => le_of_lt ((List.pairwise_cons.mp hp).1 q hq)
    rw [traceFrom_cons] at he
    rcases good_cases per now lc? per' oc ar tm hG with
      ⟨rfl, rfl, rfl, hlast⟩ | ⟨ft, lc, b, rfl, rfl, rfl, rfl, rfl, hft, hnowft, hlcnow⟩
    · by_cases hd0 : RateLimiter.next_call_wait ⟨lc?, per, false, ar⟩ t < 0
      · rw [step_no_timer_imm lc? per false ar t a hd0] at he
        rcases List.mem_append.mp he with he1 | he2
        · have he' : e = ⟨t, a, false⟩ := by simpa using he1
          subst he'
          exact Or.inr (provenance_self t a rest _ rfl (le_refl t) hlb')
        · rcases ih ⟨⟨some t, per, false, some a⟩, []⟩ t per (by simp [Good])
            hp.of_cons hlb' e he2 with ⟨_, htm, _⟩ | hdec
          · exact absurd htm (by simp)
          · exact Or.inr (provenance_lift t a rest e hdec)
      · cases lc? with
        | none => simp at hd0
        | some lc =>
          have h1 : lc ≤ now := hlast lc rfl
          have h2 : ¬ per - (t - lc) < 0 := by simpa using hd0
          rw [step_no_timer_sched lc per ar t a h2, List.nil_append] at he
          rcases ih ⟨⟨some lc, per, true, some a⟩, [lc + per]⟩ t per
            (by simp [Good]; omega) hp.of_cons hlb' e he with ⟨hargs, htm, hfut⟩ | hdec
          · refine Or.inr (provenance_self t a rest e ?_ ?_ hfut)
            · simpa using hargs.symm
            · have : lc + per = e.time := by simpa using htm
              omega
          · exact Or.inr (provenance_lift t a rest e hdec)
    · by_cases hdue : ft ≤ t
      · have hhead : ∀ q ∈ (t, a) :: rest, ft ≤ q.1 := by
          intro q hq
          rcases List.mem_cons.mp hq with rfl | hq
          · exact hdue
          · exact le_trans hdue (hlb' q hq)
        by_cases h2 : per - (t - ft) < 0
        · rw [step_timer_due_imm (some lc) per ft true b t a hdue h2] at he
          rcases List.mem_append.mp he with he1 | he2
          · rcases List.mem_cons.mp he1 with rfl | he1'
            · exact Or.inl ⟨rfl, rfl, hhead⟩
            · have he' : e = ⟨t, a, false⟩ := by simpa using he1'
              subst he'
              exact Or.inr (provenance_self t a rest _ rfl (le_refl t) hlb')
          · rcases ih ⟨⟨some t, per, false, some a⟩, []⟩ t per (by simp [Good])
              hp.of_cons hlb' e he2 with ⟨_, htm, _⟩ | hdec
            · exact absurd htm (by simp)
            · exact Or.inr (provenance_lift t a rest e hdec)
        · rw [step_timer_due_sched (some lc) per ft true b t a hdue h2] at he
          rcases List.mem_append.mp he with he1 | he2
          · have he' : e = ⟨ft, b, true⟩ := by simpa using he1
            subst he'
            exact Or.inl ⟨rfl, rfl, hhead⟩
          · rcases ih ⟨⟨some ft, per, true, some a⟩, [ft + per]⟩ t per
              (by simp [Good]; omega) hp.of_cons hlb' e he2 with ⟨hargs, htm, hfut⟩ | hdec
            · refine Or.inr (provenance_self t a rest e ?_ ?_ hfut)
              · simpa using hargs.symm
              · have : ft + per = e.time := by simpa using htm
                omega
            · exact Or.inr (provenance_lift t a rest e hdec)
      · have h2 : ¬ per - (t - lc) < 0 := by omega
        rw [step_timer_not_due lc per ft (some b) t a hdue h2, List.nil_append] at he
        rcases ih ⟨⟨some lc, per, true, some a⟩, [ft]⟩ t per
          (by simp [Good]; omega) hp.of_cons hlb' e he with ⟨hargs, htm, hfut⟩ | hdec
        · refine Or.inr (provenance_self t a rest e ?_ ?_ hfut)
          · simpa using hargs.symm
          · have : ft = e.time := by simpa using htm
            omega
        · exact Or.inr (provenance_lift t a rest e hdec)

theorem pairwise_filter_length_le_one {β : Type} (r : β → β → Prop) (P : β → Bool)
    (l : List β) (hp : l.Pairwise r)
    (h : ∀ x y, P x = true → P y = true → r x y → False) :
    (l.filter P).length ≤ 1 := by
  induction l with
  | nil => simp
  | cons x xs ih =>
    obtain ⟨hx, hxs⟩ := List.pairwise_cons.mp hp
    by_cases hPx : P x = true
    · rw [List.filter_cons_of_pos hPx]
      have hnil : xs.filter P = [] := by
        rw [List.filter_eq_nil_iff]
        intro b hb hPb
        exact h x b hPx hPb (hx b hb)
      simp [hnil]
    · rw [List.filter_cons_of_neg (by simpa using hPx)]
      exact ih hxs

theorem good_step (sys : LimiterSys α) (per now t : Int) (a : α)
    (hG : Good per now sys) (ht : now ≤ t) : Good per t (sys.step t a).1 := by
  obtain ⟨⟨lc?, per', oc, ar⟩, tm⟩ := sys
  rcases good_cases per now lc? per' oc ar tm hG with
    ⟨rfl, rfl, rfl, hlast⟩ | ⟨ft, lc, b, rfl, rfl, rfl, rfl, rfl, hft, hnowft, hlcnow⟩
  · by_cases hd0 : RateLimiter.next_call_wait ⟨lc?, per, false, ar⟩ t < 0
    · rw [step_no_timer_imm lc? per false ar t a hd0]
      simp [Good]
    · cases lc? with
      | none => simp at hd0
      | some lc =>
        have h1 : lc ≤ now := hlast lc rfl
        have h2 : ¬ per - (t - lc) < 0 := by simpa using hd0
        rw [step_no_timer_sched lc per ar t a h2]
        simp [Good]
        omega
  · by_cases hdue : ft ≤ t
    · by_cases h2 : per - (t - ft) < 0
      · rw [step_timer_due_imm (some lc) per ft true b t a hdue h2]
        simp [Good]
      · rw [step_timer_due_sched (some lc) per ft true b t a hdue h2]
        simp [Good]
        omega
    · have h2 : ¬ per - (t - lc) < 0 := by omega
      rw [step_timer_not_due lc per ft (some b) t a hdue h2]
      simp [Good]
      omega

/-- C3: for every strictly time-ordered sequence of invocations (in particular
any sequence spaced less than one period apart) the executions of the wrapped
action are pairwise at least one period apart — hence at most one execution in
any window of length `per` — and each execution runs with the args of the last
invocation that happened before it fired: its args come from an invocation at
or before its firing time, and every later invocation is at or after that
firing time. -/
theorem rateLimiter_per_period_latest_args (per : Int) (invs : List (Int × α))
    (hper : 0 < per) (hsorted : invs.Pairwise (fun p q => p.1 < q.1)) :
    (runTrace per invs).Pairwise (fun x y => x.time + per ≤ y.time) ∧
    (∀ w : Int, ((runTrace per invs).filter
        (fun e => decide (w ≤ e.time) && decide (e.time < w + per))).length ≤ 1) ∧
    (∀ e ∈ runTrace per invs, ∃ ps p rs, invs = ps ++ p :: rs ∧ e.arg = p.2 ∧
        p.1 ≤ e.time ∧ ∀ q ∈ rs, e.time ≤ q.1) := by
  have key : GapChain per none (runTrace per invs) ∧
      (∀ e ∈ runTrace per invs, ∃ ps p rs, invs = ps ++ p :: rs ∧ e.arg = p.2 ∧
        p.1 ≤ e.time ∧ ∀ q ∈ rs, e.time ≤ q.1) := by
    cases invs with
    | nil =>
      constructor
      · simp [runTrace, LimiterSys.run, GapChain]
      · intro e he
        simp [runTrace, LimiterSys.run] at he
    | cons p0 rest =>
      have hlb : ∀ p ∈ p0 :: rest, p0.1 ≤ p.1 := by
        intro p hp
        rcases List.mem_cons.mp hp with rfl | hp
        · exact le_refl _
        · exact le_of_lt ((List.pairwise_cons.mp hsorted).1 p hp)
      rw [runTrace_eq_traceFrom]
      constructor
      · exact traceFrom_gapChain _ _ p0.1 per (good_init per p0.1) hsorted hlb
      · intro e he
        rcases traceFrom_args _ _ p0.1 per (good_init per p0.1) hsorted hlb e he with
          ⟨_, htm, _⟩ | hdec
        · exact absurd htm (by simp [RateLimiter.init])
        · exact hdec
  have hpw := gapChain_pairwise per (le_of_lt hper) (runTrace per invs) none key.1
  refine ⟨hpw, ?_, key.2⟩
  intro w
  refine pairwise_filter_length_le_one _ _ _ hpw ?_
  intro x y hx hy hr
  simp only [Bool.and_eq_true, decide_eq_true_eq] at hx hy
  omega

/-- Witness for C3 at period 2 and invocations at times 0, 1, 2 (spacing 1,
less than the period). -/
theorem rateLimiter_per_period_latest_args_witness :
    (0 : Int) < 2 ∧
    ([((0 : Int), (10 : Int)), (1, 20), (2, 30)].Pairwise (fun p q => p.1 < q.1)) ∧
    ((runTrace 2 [((0 : Int), (10 : Int)), (1, 20), (2, 30)]).Pairwise
        (fun x y => x.time + 2 ≤ y.time) ∧
      (∀ w : Int, ((runTrace 2 [((0 : Int), (10 : Int)), (1, 20), (2, 30)]).filter
          (fun e => decide (w ≤ e.time) && decide (e.time < w + 2))).length ≤ 1) ∧
      (∀ e ∈ runTrace 2 [((0 : Int), (10 : Int)), (1, 20), (2, 30)],
        ∃ ps p rs, [((0 : Int), (10 : Int)), (1, 20), (2, 30)] = ps ++ p :: rs ∧
          e.arg = p.2 ∧ p.1 ≤ e.time ∧ ∀ q ∈ rs, e.time ≤ q.1)) :=
  ⟨by decide, by decide,
    rateLimiter_per_period_latest_args 2 [((0 : Int), (10 : Int)), (1, 20), (2, 30)]
      (by decide) (by decide)⟩

/-- C6: the reachability invariant (which includes "at most one wrapper
callback pending") is preserved by a scheduling step, the timer queue never
holds more than one entry, and an invocation that arrives while a callback is
pending and not yet due only overwrites the stored args: same timer queue, no
execution, no new timer. -/
theorem rateLimiter_single_scheduled_call (sys : LimiterSys α) (per now t : Int) (a : α)
    (hG : Good per now sys) (ht : now ≤ t) :
    (sys.step t a).1.timers.length ≤ 1 ∧
    Good per t (sys.step t a).1 ∧
    (sys.rl.outstanding_call = true → (∀ ft ∈ sys.timers, t ≤ ft) →
      (sys.invoke t a).1.timers = sys.timers ∧
      (sys.invoke t a).1.rl = { sys.rl with args := some a } ∧
      (sys.invoke t a).2 = none) := by
  have hGs := good_step sys per now t a hG ht
  refine ⟨hGs.2.1, hGs, ?_⟩
  intro hoc hfts
  obtain ⟨⟨lc?, per', oc, ar⟩, tm⟩ := sys
  rcases good_cases per now lc? per' oc ar tm hG with
    ⟨rfl, rfl, rfl, hlast⟩ | ⟨ft, lc, b, rfl, rfl, rfl, rfl, rfl, hft, hnowft, hlcnow⟩
  · exact absurd hoc (by simp_all)
  · have htf : t ≤ ft := hfts ft (by simp)
    have h2 : ¬ per - (t - lc) < 0 := by omega
    refine ⟨?_, ?_, ?_⟩ <;>
      simp [LimiterSys.invoke, RateLimiter.next_call_wait, h2]

/-- Witness for C6: a configuration with one pending callback at time 1,
invoked again at time 0 before the callback is due. -/
theorem rateLimiter_single_scheduled_call_witness :
    Good 1 0 (⟨⟨some 0, 1, true, some (5 : Int)⟩, [1]⟩ : LimiterSys Int) ∧
    (0 : Int) ≤ 0 ∧
    (((⟨⟨some 0, 1, true, some (5 : Int)⟩, [1]⟩ : LimiterSys Int).step 0 7).1.timers.length ≤ 1 ∧
      Good 1 0 ((⟨⟨some 0, 1, true, some (5 : Int)⟩, [1]⟩ : LimiterSys Int).step 0 7).1 ∧
      ((⟨⟨some 0, 1, true, some (5 : Int)⟩, [1]⟩ : LimiterSys Int).rl.outstanding_call = true →
        (∀ ft ∈ (⟨⟨some 0, 1, true, some (5 : Int)⟩, [1]⟩ : LimiterSys Int).timers, (0:Int) ≤ ft) →
        ((⟨⟨some 0, 1, true, some (5 : Int)⟩, [1]⟩ : LimiterSys Int).invoke 0 7).1.timers = [1] ∧
        ((⟨⟨some 0, 1, true, some (5 : Int)⟩, [1]⟩ : LimiterSys Int).invoke 0 7).1.rl
          = ⟨some 0, 1, true, some 7⟩ ∧
        ((⟨⟨some 0, 1, true, some (5 : Int)⟩, [1]⟩ : LimiterSys Int).invoke 0 7).2 = none)) :=
  ⟨by simp [Good], by decide,
    rateLimiter_single_scheduled_call (⟨⟨some 0, 1, true, some (5 : Int)⟩, [1]⟩ : LimiterSys Int)
      1 0 0 7 (by simp [Good]) (by decide)⟩

/-- C7 counterexample: with a prior execution at time 0 and period 1, an
invocation at time 1 has remaining wait exactly 0; the claim predicts an
immediate execution, but the code (`if delay < 0`) defers it, scheduling a
zero-delay callback instead and leaving `last_call` untouched. -/
theorem remaining_zero_defers_cex :
    RateLimiter.next_call_wait (⟨some 0, 1, false, some (5 : Int)⟩ : RateLimiter Int) 1 ≤ 0 ∧
    ((⟨⟨some 0, 1, false, some (5 : Int)⟩, []⟩ : LimiterSys Int).invoke 1 7).2 = none ∧
    ((⟨⟨some 0, 1, false, some (5 : Int)⟩, []⟩ : LimiterSys Int).invoke 1 7).1.timers = [1] ∧
    ((⟨⟨some 0, 1, false, some (5 : Int)⟩, []⟩ : LimiterSys Int).invoke 1 7).1.rl.last_call
      = some 0 := by decide

/-- C7 amended: an invocation executes the action immediately exactly when
`next_call_wait` is strictly negative — that is, when no prior execution has
occurred or when `period - (now - last_call) < 0`; at a remaining wait of
exactly 0 the call is deferred.  On immediate execution `last_call` is updated
to now. -/
theorem invoke_immediate_iff_negative_wait (sys : LimiterSys α) (now : Int) (a : α) :
    ((sys.invoke now a).2 = some ⟨now, a, false⟩ ↔ sys.rl.next_call_wait now < 0) ∧
    ((sys.invoke now a).2 = none ↔ ¬ sys.rl.next_call_wait now < 0) ∧
    (sys.rl.next_call_wait now < 0 → (sys.invoke now a).1.rl.last_call = some now) ∧
    (sys.rl.next_call_wait now < 0 ↔
      sys.rl.last_call = none ∨
        ∃ lc, sys.rl.last_call = some lc ∧ sys.rl.period - (now - lc) < 0) := by
  obtain ⟨⟨lc?, per', oc, ar⟩, tm⟩ := sys
  cases lc? with
  | none =>
    cases oc <;>
      simp [LimiterSys.invoke, RateLimiter.wrapper, RateLimiter.next_call_wait]
  | some lc =>
    by_cases h : per' - (now - lc) < 0 <;>
      cases oc <;>
        simp [LimiterSys.invoke, RateLimiter.wrapper, RateLimiter.next_call_wait, h] <;>
          omega

/-- Witness for C7 amended at the counterexample's configuration. -/
theorem invoke_immediate_iff_negative_wait_witness :
    (((⟨⟨some 0, 1, false, some (5 : Int)⟩, []⟩ : LimiterSys Int).invoke 1 7).2
        = some ⟨1, 7, false⟩ ↔
      (⟨some 0, 1, false, some (5 : Int)⟩ : RateLimiter Int).next_call_wait 1 < 0) ∧
    (((⟨⟨some 0, 1, false, some (5 : Int)⟩, []⟩ : LimiterSys Int).invoke 1 7).2 = none ↔
      ¬ (⟨some 0, 1, false, some (5 : Int)⟩ : RateLimiter Int).next_call_wait 1 < 0) ∧
    ((⟨some 0, 1, false, some (5 : Int)⟩ : RateLimiter Int).next_call_wait 1 < 0 →
      ((⟨⟨some 0, 1, false, some (5 : Int)⟩, []⟩ : LimiterSys Int).invoke 1 7).1.rl.last_call
        = some 1) ∧
    ((⟨some 0, 1, false, some (5 : Int)⟩ : RateLimiter Int).next_call_wait 1 < 0 ↔
      (⟨some 0, 1, false, some (5 : Int)⟩ : RateLimiter Int).last_call = none ∨
        ∃ lc, (⟨some 0, 1, false, some (5 : Int)⟩ : RateLimiter Int).last_call = some lc ∧
          (⟨some 0, 1, false, some (5 : Int)⟩ : RateLimiter Int).period - (1 - lc) < 0) :=
  invoke_immediate_iff_negative_wait (⟨⟨some 0, 1, false, some (5 : Int)⟩, []⟩ : LimiterSys Int)
    1 7

/-- C10: `wrapper` records `last_call = now` and clears `outstanding_call`
before running the wrapped function, so the limiter state after an execution
whose action raises equals the state after a successful one; consequently a
later invocation strictly within one period of the raising execution is
coalesced (no immediate execution) rather than executed immediately. -/
theorem wrapper_state_before_action {ε : Type} (f g : α → Except ε Unit)
    (s : RateLimiter α) (now : Int) (tm : List Int) (t : Int) (a : α)
    (h : t < now + s.period) :
    (RateLimiter.wrapper_exc f s now).1 = (RateLimiter.wrapper_exc g s now).1 ∧
    (RateLimiter.wrapper_exc f s now).1 = (s.wrapper now).1 ∧
    (RateLimiter.wrapper_exc f s now).1.last_call = some now ∧
    (RateLimiter.wrapper_exc f s now).1.outstanding_call = false ∧
    (LimiterSys.invoke ⟨(RateLimiter.wrapper_exc f s now).1, tm⟩ t a).2 = none := by
  obtain ⟨lc?, per, oc, ar⟩ := s
  refine ⟨rfl, rfl, rfl, rfl, ?_⟩
  simp only [RateLimiter.wrapper_exc, LimiterSys.invoke]
  have hwait : ¬ per - (t - now) < 0 := by
    simp only at h
    omega
  rw [if_neg (by simpa using hwait)]
  by_cases hoc :
      ({ last_call := some now, period := per, outstanding_call := false,
          args := some a } : RateLimiter α).outstanding_call = true
  · simp at hoc
  · simp [hoc]

/-- Witness for C10: a raising action and a succeeding action at time 2,
followed by an invocation at time 4 inside the period 5. -/
theorem wrapper_state_before_action_witness :
    (4 : Int) < 2 + (⟨some 0, 5, true, some 3⟩ : RateLimiter Int).period ∧
    ((RateLimiter.wrapper_exc (fun _ => Except.error "e")
        (⟨some 0, 5, true, some 3⟩ : RateLimiter Int) 2).1
      = (RateLimiter.wrapper_exc (fun _ : Int => (Except.ok () : Except String Unit))
        (⟨some 0, 5, true, some 3⟩ : RateLimiter Int) 2).1 ∧
     (RateLimiter.wrapper_exc (fun _ => Except.error "e")
        (⟨some 0, 5, true, some 3⟩ : RateLimiter Int) 2).1
      = ((⟨some 0, 5, true, some 3⟩ : RateLimiter Int).wrapper 2).1 ∧
     (RateLimiter.wrapper_exc (fun _ => Except.error "e")
        (⟨some 0, 5, true, some 3⟩ : RateLimiter Int) 2).1.last_call = some 2 ∧
     (RateLimiter.wrapper_exc (fun _ => Except.error "e")
        (⟨some 0, 5, true, some 3⟩ : RateLimiter Int) 2).1.outstanding_call = false ∧
     (LimiterSys.invoke ⟨(RateLimiter.wrapper_exc (fun _ => Except.error "e")
        (⟨some 0, 5, true, some 3⟩ : RateLimiter Int) 2).1, []⟩ 4 9).2 = none) :=
  ⟨by decide,
    wrapper_state_before_action (fun _ => Except.error "e")
      (fun _ : Int => (Except.ok () : Except String Unit))
      (⟨some 0, 5, true, some 3⟩ : RateLimiter Int) 2 [] 4 9 (by decide)⟩

/-! ## Client claim theorems -/

/-- A service that acknowledges with status OK and echoes the pushed settings
back unchanged. -/
def echoService : CameraControlRequest → CameraControlReply :=
  fun req => ⟨ReplyStatus.OK, req.stereo_settings, req.rgb_settings⟩

/-- A service that rejects every push with a non-OK status and junk settings
in the reply payload. -/
def rejectService : CameraControlRequest → CameraControlReply :=
  fun _ => ⟨ReplyStatus.FAILED, ⟨false, 9, 9⟩, ⟨false, 9, 9⟩⟩

/-- C1: a settings push acknowledged with status OK overwrites both snapshots
with exactly the settings echoed back by the service (`settings_reply` copies
`reply.rgb_settings` and `reply.stereo_settings` over the client's state). -/
theorem push_settings_ok_overwrites_snapshot (c : OakCameraClient)
    (service : CameraControlRequest → CameraControlReply)
    (h : (c.push_settings service).2.status = ReplyStatus.OK) :
    (c.push_settings service).1.rgb_camera_settings
      = (c.push_settings service).2.rgb_settings ∧
    (c.push_settings service).1.mono_camera_settings
      = (c.push_settings service).2.stereo_settings := by
  simp only [OakCameraClient.push_settings, OakCameraClient.send_settings] at h ⊢
  simp [OakCameraClient.settings_reply, h]

/-- Witness for C1: pushing the initial settings (auto-exposure on) to a
service that acknowledges OK and echoes `{auto_exposure := true}` back leaves
the acknowledged rgb snapshot equal to exactly that value. -/
theorem push_settings_ok_overwrites_snapshot_witness :
    (OakCameraClient.init.push_settings echoService).2.status = ReplyStatus.OK ∧
    ((OakCameraClient.init.push_settings echoService).1.rgb_camera_settings
        = (OakCameraClient.init.push_settings echoService).2.rgb_settings ∧
      (OakCameraClient.init.push_settings echoService).1.mono_camera_settings
        = (OakCameraClient.init.push_settings echoService).2.stereo_settings) ∧
    (OakCameraClient.init.push_settings echoService).1.rgb_camera_settings
      = ⟨true, 0, 0⟩ :=
  ⟨by decide,
    push_settings_ok_overwrites_snapshot OakCameraClient.init echoService (by decide),
    by decide⟩

/-- C4 counterexample: start from a client whose dirty flag is set, push to a
service that answers with a non-OK status.  The snapshots are indeed left
unchanged, but `needs_update` is false afterwards (cleared at dispatch and
never re-set), refuting "the dirty flag is still set afterwards". -/
theorem push_settings_non_ok_flag_cleared_cex :
    (({ OakCameraClient.init with needs_update := true } : OakCameraClient).push_settings
        rejectService).2.status ≠ ReplyStatus.OK ∧
    (({ OakCameraClient.init with needs_update := true } : OakCameraClient).push_settings
        rejectService).1.needs_update = false ∧
    (({ OakCameraClient.init with needs_update := true } : OakCameraClient).push_settings
        rejectService).1.rgb_camera_settings = ⟨true, 0, 0⟩ := by decide

/-- C4 amended: a push acknowledged with a non-OK status leaves both settings
snapshots unchanged from their prior values, but the dirty flag — cleared at
dispatch, before the reply — stays cleared rather than "still set"; since the
desired values are untouched, a subsequent `send_settings` dispatches the same
request again. -/
theorem push_settings_non_ok_keeps_snapshot (c : OakCameraClient)
    (service : CameraControlRequest → CameraControlReply)
    (h : (c.push_settings service).2.status ≠ ReplyStatus.OK) :
    (c.push_settings service).1.rgb_camera_settings = c.rgb_camera_settings ∧
    (c.push_settings service).1.mono_camera_settings = c.mono_camera_settings ∧
    (c.push_settings service).1.needs_update = false ∧
    ((c.push_settings service).1.send_settings).2 = (c.send_settings).2 := by
  simp only [OakCameraClient.push_settings, OakCameraClient.send_settings] at h ⊢
  simp [OakCameraClient.settings_reply, h]

/-- Witness for C4 amended, at the counterexample's input. -/
theorem push_settings_non_ok_keeps_snapshot_witness :
    (({ OakCameraClient.init with needs_update := true } : OakCameraClient).push_settings
        rejectService).2.status ≠ ReplyStatus.OK ∧
    ((({ OakCameraClient.init with needs_update := true } : OakCameraClient).push_settings
        rejectService).1.rgb_camera_settings
      = ({ OakCameraClient.init with needs_update := true } : OakCameraClient).rgb_camera_settings ∧
    (({ OakCameraClient.init with needs_update := true } : OakCameraClient).push_settings
        rejectService).1.mono_camera_settings
      = ({ OakCameraClient.init with needs_update := true } : OakCameraClient).mono_camera_settings ∧
    (({ OakCameraClient.init with needs_update := true } : OakCameraClient).push_settings
        rejectService).1.needs_update = false ∧
    ((({ OakCameraClient.init with needs_update := true } : OakCameraClient).push_settings
        rejectService).1.send_settings).2
      = (({ OakCameraClient.init with needs_update := true } : OakCameraClient).send_settings).2) :=
  ⟨by decide,
    push_settings_non_ok_keeps_snapshot
      ({ OakCameraClient.init with needs_update := true } : OakCameraClient)
      rejectService (by decide)⟩

/-- C5: every RPC-layer failure of the state query (connection error, timeout,
unreachable peer, server not started, malformed reply) makes `get_state`
return the sentinel UNKNOWN; `get_state` is a total function, so no exception
reaches the caller. -/
theorem get_state_rpc_failure_returns_unknown (e : RpcError) :
    OakCameraClient.get_state (Except.error e) = ServiceState.UNKNOWN := rfl

/-- Witness for C5 at a concrete RPC failure. -/
theorem get_state_rpc_failure_returns_unknown_witness :
    OakCameraClient.get_state (Except.error RpcError.timeout) = ServiceState.UNKNOWN :=
  get_state_rpc_failure_returns_unknown RpcError.timeout

/-- C2 counterexample: calling `stream_frames` twice on one client yields two
distinct stream handles and two opened server streams, refuting "at most one
server-driven stream is created per client session". -/
theorem stream_frames_twice_two_streams_cex :
    ((OakCameraClient.init.stream_frames 10).1.stream_frames 10).2
      ≠ (OakCameraClient.init.stream_frames 10).2 ∧
    ((OakCameraClient.init.stream_frames 10).1.stream_frames 10).1.streams_opened = 2 := by
  decide

/-- C2 amended: `stream_frames` performs no caching or reuse — every call
opens one more server stream and returns a fresh handle; the repository's
callers (not the client) guard against duplicates by storing the handle. -/
theorem stream_frames_opens_new_stream_each_call (c : OakCameraClient) (n m : Int) :
    (c.stream_frames n).1.streams_opened = c.streams_opened + 1 ∧
    ((c.stream_frames n).1.stream_frames m).2 ≠ (c.stream_frames n).2 ∧
    ((c.stream_frames n).1.stream_frames m).1.streams_opened = c.streams_opened + 2 := by
  refine ⟨rfl, ?_, rfl⟩
  intro h
  have hid := congrArg StreamHandle.id h
  simp [OakCameraClient.stream_frames] at hid

/-- Witness for C2 amended at a fresh client with decimation 10 and 7. -/
theorem stream_frames_opens_new_stream_each_call_witness :
    (OakCameraClient.init.stream_frames 10).1.streams_opened
        = OakCameraClient.init.streams_opened + 1 ∧
    ((OakCameraClient.init.stream_frames 10).1.stream_frames 7).2
        ≠ (OakCameraClient.init.stream_frames 10).2 ∧
    ((OakCameraClient.init.stream_frames 10).1.stream_frames 7).1.streams_opened
        = OakCameraClient.init.streams_opened + 2 :=
  stream_frames_opens_new_stream_each_call OakCameraClient.init 10 7

/-! ## Rate-limited settings mutators

`update_rgb_settings` and `update_mono_settings` are decorated with
`@RateLimiter(period=1)`.  The decorator expression runs once, when the class
body is evaluated, so each of the two methods owns exactly one `RateLimiter`
object for the whole process: the two channels get distinct limiters, but all
`OakCameraClient` instances share the limiter of a given method.  The world
below holds the two class-level limiters and the client instances; the args
stored in a limiter are the bound-method arguments `(self, settings)`, with
`self` encoded as the index of the client instance. -/

inductive Channel
  | rgb
  | mono
deriving Repr, DecidableEq

structure ClientWorld where
  rgb_limiter : LimiterSys (Nat × CameraSettings)
  mono_limiter : LimiterSys (Nat × CameraSettings)
  clients : List OakCameraClient
deriving Repr, DecidableEq

/-- Fresh process state: both class-level limiters are the decorator's
`RateLimiter(period=1)` objects, with the given client instances. -/
def ClientWorld.init (clients : List OakCameraClient) : ClientWorld :=
  { rgb_limiter := ⟨RateLimiter.init _ 1, []⟩
    mono_limiter := ⟨RateLimiter.init _ 1, []⟩
    clients := clients }

/-- Body of the undecorated `update_rgb_settings` (lines 143-145): sets the
dirty flag and replaces the desired rgb settings of client `i`. -/
def applyRgbUpdate (clients : List OakCameraClient) (i : Nat) (s : CameraSettings) :
    List OakCameraClient :=
  match clients.get? i with
  | some c => clients.set i { c with needs_update := true, rgb_camera_settings := s }
  | none => clients

/-- Body of the undecorated `update_mono_settings` (lines 148-150). -/
def applyMonoUpdate (clients : List OakCameraClient) (i : Nat) (s : CameraSettings) :
    List OakCameraClient :=
  match clients.get? i with
  | some c => clients.set i { c with needs_update := true, mono_camera_settings := s }
  | none => clients

/-- Calling `client_i.update_rgb_settings(s)` at time `now`: the shared rgb
limiter's `async_wrapper` runs; if it executes immediately, the method body
runs on the stored `(self, settings)` args. -/
def ClientWorld.update_rgb_settings (w : ClientWorld) (now : Int) (i : Nat)
    (s : CameraSettings) : ClientWorld :=
  let p := w.rgb_limiter.invoke now (i, s)
  match p.2 with
  | some e =>
    { w with
      rgb_limiter := p.1
      clients := applyRgbUpdate w.clients e.arg.1 e.arg.2 }
  | none => { w with rgb_limiter := p.1 }

/-- Calling `client_i.update_mono_settings(s)` at time `now`. -/
def ClientWorld.update_mono_settings (w : ClientWorld) (now : Int) (i : Nat)
    (s : CameraSettings) : ClientWorld :=
  let p := w.mono_limiter.invoke now (i, s)
  match p.2 with
  | some e =>
    { w with
      mono_limiter := p.1
      clients := applyMonoUpdate w.clients e.arg.1 e.arg.2 }
  | none => { w with mono_limiter := p.1 }

def ClientWorld.limiterOf (w : ClientWorld) : Channel → LimiterSys (Nat × CameraSettings)
  | .rgb => w.rgb_limiter
  | .mono => w.mono_limiter

def ClientWorld.update_settings (w : ClientWorld) (ch : Channel) (now : Int) (i : Nat)
    (s : CameraSettings) : ClientWorld :=
  match ch with
  | .rgb => w.update_rgb_settings now i s
  | .mono => w.update_mono_settings now i s

theorem invoke_no_exec_of_nonneg_wait {β : Type} (sys : LimiterSys β) (t : Int) (a : β)
    (hwait : ¬ sys.rl.next_call_wait t < 0) : (sys.invoke t a).2 = none := by
  obtain ⟨⟨lc?, per', oc, ar⟩, tm⟩ := sys
  cases lc? with
  | none => simp [RateLimiter.next_call_wait] at hwait
  | some lc =>
    simp only [next_call_wait_some] at hwait
    simp only [LimiterSys.invoke, next_call_wait_some]
    rw [if_neg hwait]
    cases oc <;> simp

/-- C8 counterexample: two fresh client instances; instance 0 calls
`update_rgb_settings` at time 0 and its settings are applied immediately, but
instance 1's very first call to `update_rgb_settings`, also at time 0, is
deferred — its settings are not applied and the shared class-level limiter now
holds instance 1's args — because instance 0's invocation had already written
`last_call` into the very limiter state instance 1's invocation reads.  With
per-instance limiters, instance 1's first call would have executed
immediately. -/
theorem shared_rgb_limiter_across_instances_cex :
    (((ClientWorld.init [OakCameraClient.init, OakCameraClient.init]).update_rgb_settings
        0 0 ⟨false, 3, 3⟩).clients.get? 0
      = some { OakCameraClient.init with
          needs_update := true, rgb_camera_settings := ⟨false, 3, 3⟩ }) ∧
    ((((ClientWorld.init [OakCameraClient.init, OakCameraClient.init]).update_rgb_settings
        0 0 ⟨false, 3, 3⟩).update_rgb_settings 0 1 ⟨false, 5, 5⟩).clients.get? 1
      = some OakCameraClient.init) ∧
    ((((ClientWorld.init [OakCameraClient.init, OakCameraClient.init]).update_rgb_settings
        0 0 ⟨false, 3, 3⟩).update_rgb_settings 0 1 ⟨false, 5, 5⟩).rgb_limiter.rl.outstanding_call
      = true) ∧
    ((((ClientWorld.init [OakCameraClient.init, OakCameraClient.init]).update_rgb_settings
        0 0 ⟨false, 3, 3⟩).update_rgb_settings 0 1 ⟨false, 5, 5⟩).rgb_limiter.rl.last_call
      = some 0) := by decide

/-- C8 amended: each decorated method owns one limiter with period 1, created
once at class definition: the rgb and mono channels use distinct, independent
limiters (updating one never touches the other's state), but that limiter is
shared by all client instances — every instance's `update_rgb_settings` call
reads and writes the same class-level rgb limiter state. -/
theorem limiters_per_channel_shared_across_instances (w : ClientWorld) (now : Int)
    (i : Nat) (s : CameraSettings) (cls : List OakCameraClient) :
    (w.update_rgb_settings now i s).mono_limiter = w.mono_limiter ∧
    (w.update_mono_settings now i s).rgb_limiter = w.rgb_limiter ∧
    (w.update_rgb_settings now i s).rgb_limiter = (w.rgb_limiter.invoke now (i, s)).1 ∧
    (w.update_mono_settings now i s).mono_limiter = (w.mono_limiter.invoke now (i, s)).1 ∧
    (ClientWorld.init cls).rgb_limiter.rl.period = 1 ∧
    (ClientWorld.init cls).mono_limiter.rl.period = 1 := by
  refine ⟨?_, ?_, ?_, ?_, rfl, rfl⟩
  · simp only [ClientWorld.update_rgb_settings]
    cases hx : (w.rgb_limiter.invoke now (i, s)).2 <;> simp [hx]
  · simp only [ClientWorld.update_mono_settings]
    cases hx : (w.mono_limiter.invoke now (i, s)).2 <;> simp [hx]
  · simp only [ClientWorld.update_rgb_settings]
    cases hx : (w.rgb_limiter.invoke now (i, s)).2 <;> simp [hx]
  · simp only [ClientWorld.update_mono_settings]
    cases hx : (w.mono_limiter.invoke now (i, s)).2 <;> simp [hx]

/-- Witness for C8 amended at a concrete two-client world. -/
theorem limiters_per_channel_shared_across_instances_witness :
    ((ClientWorld.init [OakCameraClient.init, OakCameraClient.init]).update_rgb_settings
        0 0 ⟨false, 3, 3⟩).mono_limiter
      = (ClientWorld.init [OakCameraClient.init, OakCameraClient.init]).mono_limiter ∧
    ((ClientWorld.init [OakCameraClient.init, OakCameraClient.init]).update_mono_settings
        0 0 ⟨false, 3, 3⟩).rgb_limiter
      = (ClientWorld.init [OakCameraClient.init, OakCameraClient.init]).rgb_limiter ∧
    ((ClientWorld.init [OakCameraClient.init, OakCameraClient.init]).update_rgb_settings
        0 0 ⟨false, 3, 3⟩).rgb_limiter
      = ((ClientWorld.init [OakCameraClient.init,
          OakCameraClient.init]).rgb_limiter.invoke 0 (0, ⟨false, 3, 3⟩)).1 ∧
    ((ClientWorld.init [OakCameraClient.init, OakCameraClient.init]).update_mono_settings
        0 0 ⟨false, 3, 3⟩).mono_limiter
      = ((ClientWorld.init [OakCameraClient.init,
          OakCameraClient.init]).mono_limiter.invoke 0 (0, ⟨false, 3, 3⟩)).1 ∧
    (ClientWorld.init ([] : List OakCameraClient)).rgb_limiter.rl.period = 1 ∧
    (ClientWorld.init ([] : List OakCameraClient)).mono_limiter.rl.period = 1 :=
  limiters_per_channel_shared_across_instances
    (ClientWorld.init [OakCameraClient.init, OakCameraClient.init]) 0 0 ⟨false, 3, 3⟩
    ([] : List OakCameraClient)

/-- C9: an `update_rgb_settings` / `update_mono_settings` call that arrives
while the channel's limiter is within its rate-limit window (nonnegative
remaining wait, deferred execution pending) leaves every client's stored
desired settings and dirty flag untouched, so a `send_settings` issued in that
window dispatches the previous settings values, not the newly supplied ones. -/
theorem update_while_pending_keeps_settings (w : ClientWorld) (ch : Channel) (t : Int)
    (i : Nat) (s : CameraSettings)
    (hout : (w.limiterOf ch).rl.outstanding_call = true)
    (hwait : ¬ (w.limiterOf ch).rl.next_call_wait t < 0) :
    (w.update_settings ch t i s).clients = w.clients ∧
    ∀ j, ((w.update_settings ch t i s).clients.getD j OakCameraClient.init).send_settings
        = (w.clients.getD j OakCameraClient.init).send_settings := by
  have hclients : (w.update_settings ch t i s).clients = w.clients := by
    cases ch with
    | rgb =>
      have hnone := invoke_no_exec_of_nonneg_wait w.rgb_limiter t (i, s) hwait
      simp [ClientWorld.update_settings, ClientWorld.update_rgb_settings, hnone]
    | mono =>
      have hnone := invoke_no_exec_of_nonneg_wait w.mono_limiter t (i, s) hwait
      simp [ClientWorld.update_settings, ClientWorld.update_mono_settings, hnone]
  exact ⟨hclients, fun j => by rw [hclients]⟩

/-- Witness for C9: a world whose shared rgb limiter has a pending deferred
execution (scheduled at time 1 after an execution at time 0) receives another
rgb update at time 0; the single client's stored settings stay at their
initial values. -/
theorem update_while_pending_keeps_settings_witness :
    ((⟨⟨⟨some 0, 1, true, some (0, ⟨false, 3, 3⟩)⟩, [1]⟩,
        ⟨RateLimiter.init _ 1, []⟩, [OakCameraClient.init]⟩ :
      ClientWorld).limiterOf Channel.rgb).rl.outstanding_call = true ∧
    ¬ ((⟨⟨⟨some 0, 1, true, some (0, ⟨false, 3, 3⟩)⟩, [1]⟩,
        ⟨RateLimiter.init _ 1, []⟩, [OakCameraClient.init]⟩ :
      ClientWorld).limiterOf Channel.rgb).rl.next_call_wait 0 < 0 ∧
    (((⟨⟨⟨some 0, 1, true, some (0, ⟨false, 3, 3⟩)⟩, [1]⟩,
        ⟨RateLimiter.init _ 1, []⟩, [OakCameraClient.init]⟩ :
      ClientWorld).update_settings Channel.rgb 0 0 ⟨false, 5, 5⟩).clients
        = [OakCameraClient.init] ∧
      ∀ j, (((⟨⟨⟨some 0, 1, true, some (0, ⟨false, 3, 3⟩)⟩, [1]⟩,
          ⟨RateLimiter.init _ 1, []⟩, [OakCameraClient.init]⟩ :
        ClientWorld).update_settings Channel.rgb 0 0 ⟨false, 5, 5⟩).clients.getD j
          OakCameraClient.init).send_settings
        = (([OakCameraClient.init] : List OakCameraClient).getD j
            OakCameraClient.init).send_settings) :=
  ⟨by decide, by decide,
    update_while_pending_keeps_settings
      (⟨⟨⟨some 0, 1, true, some (0, ⟨false, 3, 3⟩)⟩, [1]⟩,
        ⟨RateLimiter.init _ 1, []⟩, [OakCameraClient.init]⟩ : ClientWorld)
      Channel.rgb 0 0 ⟨false, 5, 5⟩ (by decide) (by decide)⟩

end CameraClient
